import Mathlib

/-!
Shallow embedding of the CPU-benchmark tool (two variants: `CPUWin.cpp` and
`CPUWin2.cpp`).  The platform topology query is modelled as an abstract list of
processor-relationship entries; time is modelled as an abstract sequence of
monotone clock readings (rationals, in seconds); IEEE-double divisions whose
divisor may be zero are modelled with an `Option` result, `none` standing for
the non-finite value produced by a division by zero.
-/

/-- The two-valued core kind of the specification. -/
inductive CoreKind where
  | Performance
  | Efficiency
deriving DecidableEq, Repr

/-- The kind denoted by one of the source's "type" strings:
`"P-Core"` is the Performance kind, anything else (the source only ever
produces `"E-Core"` otherwise) the Efficiency kind. -/
def kindOfType (t : String) : CoreKind :=
  if t = "P-Core" then CoreKind.Performance else CoreKind.Efficiency

/-- One entry of the platform's logical-processor-information buffer, as far
as the two discovery loops consume it: its relationship tag (`isCore` models
`Relationship == RelationProcessorCore`), the reported `EfficiencyClass`, and
the list `GroupMask[0..GroupCount-1].Mask` of group affinity masks. -/
structure ProcEntry where
  isCore : Bool
  efficiencyClass : Nat
  groupMasks : List Nat
deriving DecidableEq, Repr

/-- Model of the loop of `CountSetBits`: add the low bit, shift right, repeat
while the mask is nonzero.  `fuel` only bounds the recursion structurally;
`fuel = m` always suffices because the mask at least halves each step. -/
def countSetBitsAux : Nat → Nat → Nat
  | 0, _ => 0
  | fuel + 1, m => if m = 0 then 0 else m % 2 + countSetBitsAux fuel (m / 2)

/-- Model of `CountSetBits` from `CPUWin2.cpp`: repeatedly add the low bit and shift. -/
def countSetBits (m : Nat) : Nat :=
  countSetBitsAux m m

/-- Structure `CoreInfo` of `CPUWin2.cpp` (the fields the core engine reads or writes;
the real-time progress atomics are presentation state and are omitted). -/
structure CoreInfo2 where
  id : Nat
  logicalCore : Nat
  physicalCore : Nat
  type : String
  efficiencyClass : Nat
  mathScore : ℚ
  memoryScore : ℚ
  branchScore : ℚ
  cacheScore : ℚ
  mixedScore : ℚ
  overallScore : ℚ
  avgLatency : ℚ
  peakThroughput : ℚ
  affinityMask : Nat
deriving DecidableEq, Repr

/-- The descriptor `DetectCPUCores` pushes for logical processor `coreId`
with platform class `ec` (`CPUWin2.cpp` lines 106–124): classification is
`EfficiencyClass == 0 ? "P-Core" : "E-Core"` and the affinity selector is the
shift `(DWORD_PTR)1 << coreId` computed in the 64-bit `DWORD_PTR`.  A shift
by 64 or more positions overflows the type (it is undefined behaviour in
C++); it is modelled as the truncating 64-bit shift `2 ^ coreId mod 2 ^ 64`,
which agrees with `2 ^ coreId` exactly for `coreId < 64` and degenerates
beyond. -/
def mkCore2 (coreId ec : Nat) : CoreInfo2 :=
  { id := coreId
    logicalCore := coreId
    physicalCore := coreId / 2
    type := if ec = 0 then "P-Core" else "E-Core"
    efficiencyClass := ec
    mathScore := 0
    memoryScore := 0
    branchScore := 0
    cacheScore := 0
    mixedScore := 0
    overallScore := 0
    avgLatency := 0
    peakThroughput := 0
    affinityMask := 2 ^ coreId % 2 ^ 64 }

/-- Inner loop of `DetectCPUCores`: one descriptor per logical processor of
one group mask (`for j in 0..CountSetBits(mask)`), ids continuing from
`startId`. -/
def coresOfMask (ec startId cnt : Nat) : List CoreInfo2 :=
  (List.range cnt).map (fun j => mkCore2 (startId + j) ec)

/-- Middle loop of `DetectCPUCores`: over the entry's group masks. -/
def coresOfMasks (ec : Nat) : List Nat → Nat → List CoreInfo2
  | [], _ => []
  | m :: rest, startId =>
      coresOfMask ec startId (countSetBits m)
        ++ coresOfMasks ec rest (startId + countSetBits m)

/-- Outer loop of `DetectCPUCores`: over all buffer entries, skipping entries
that are not `RelationProcessorCore`. -/
def detectLoop2 : List ProcEntry → Nat → List CoreInfo2
  | [], _ => []
  | e :: rest, startId =>
      if e.isCore then
        coresOfMasks e.efficiencyClass e.groupMasks startId
          ++ detectLoop2 rest (startId + (coresOfMasks e.efficiencyClass e.groupMasks startId).length)
      else detectLoop2 rest startId

/-- Model of `DetectCPUCores` of `CPUWin2.cpp`.  `none` models a failing
`GetLogicalProcessorInformationEx` call, on which the function returns the
still-empty vector. -/
def detectCPUCores (platform : Option (List ProcEntry)) : List CoreInfo2 :=
  match platform with
  | none => []
  | some entries => detectLoop2 entries 0

/-- Structure `CoreInfo` of `CPUWin.cpp`. -/
structure CoreInfo1 where
  id : Nat
  efficiencyClass : Nat
  affinityMask : Nat
  type : String
  workCompleted : Nat
  score : ℚ
deriving DecidableEq, Repr

/-- Discovery loop of `DetectCPUTopology` (`CPUWin.cpp` lines 69–83): one
descriptor per `RelationProcessorCore` entry, whose affinity mask is the
platform's `GroupMask[0].Mask` taken verbatim, and whose classification is
`efficiencyClass > 0 ? "P-Core" : "E-Core"`. -/
def detectLoop1 : List ProcEntry → Nat → List CoreInfo1
  | [], _ => []
  | e :: rest, coreId =>
      if e.isCore then
        { id := coreId
          efficiencyClass := e.efficiencyClass
          affinityMask := e.groupMasks.headD 0
          type := if e.efficiencyClass > 0 then "P-Core" else "E-Core"
          workCompleted := 0
          score := 0 } :: detectLoop1 rest (coreId + 1)
      else detectLoop1 rest coreId

/-- Model of `DetectCPUTopology` of `CPUWin.cpp`: fills the global core list and
returns `!g_cores.empty()`; `none` models the two early-error paths (buffer
size query or information query failed), which return `false` with the list
still empty. -/
def detectCPUTopology (platform : Option (List ProcEntry)) : Bool × List CoreInfo1 :=
  match platform with
  | none => (false, [])
  | some entries =>
      let cs := detectLoop1 entries 0
      (!cs.isEmpty, cs)

/-- The IEEE-double division `x / y` of the source wherever `y` can be zero:
`none` models the non-finite value (NaN or an infinity) that a zero divisor
produces — the source never guards any of these divisions. -/
def fdiv (x y : ℚ) : Option ℚ :=
  if y = 0 then none else some (x / y)

/-- Result of one timed kernel run: the iteration counter, the measured
elapsed wall-clock seconds (`actual_end - start`), and the returned value
`operations / elapsed`. -/
structure KernelResult where
  operations : Nat
  elapsedSeconds : ℚ
  throughput : Option ℚ
deriving DecidableEq, Repr

/-- Number of iterations of the deadline-polling loop
`while (now() < end) { body; operations++; }`.  `clock` is the abstract
sequence of `high_resolution_clock::now()` readings, `i` the index of the
next reading, and `fuel` bounds the unrolling (on a real clock the deadline
is eventually passed; every theorem below holds for every fuel). -/
def loopIters (clock : Nat → ℚ) (endT : ℚ) : Nat → Nat → Nat
  | 0, _ => 0
  | fuel + 1, i => if clock i < endT then loopIters clock endT fuel (i + 1) + 1 else 0

/-- The timing skeleton shared by the five kernels of `CPUWin2.cpp`
(lines 141–168 of `MathIntensiveTest` and its four siblings): read `start`,
set the deadline `start + duration_ms` milliseconds, poll the clock once per
iteration, read `actual_end`, and return `operations / elapsed` — with no
guard against a zero elapsed time.  Reading indices: reading 0 is `start`,
readings `1..ops+1` are the loop's deadline checks (the last one failing),
reading `ops+2` is `actual_end`.  The loop bodies (volatile accumulators
whose values are discarded) do not influence the returned value and are not
modelled. -/
def runTimedLoop (clock : Nat → ℚ) (duration_ms : Int) (fuel : Nat) : KernelResult :=
  let start := clock 0
  let endT := start + (duration_ms : ℚ) / 1000
  let ops := loopIters clock endT fuel 1
  let elapsed := clock (ops + 2) - start
  { operations := ops
    elapsedSeconds := elapsed
    throughput := fdiv (ops : ℚ) elapsed }

/-- A worker-visible action of one kernel invocation, in program order. -/
inductive WorkerEvent where
  | bindAffinity (mask : Nat)
  | raisePriority
  | timedSection
deriving DecidableEq, Repr

/-- The action order of every kernel of `CPUWin2.cpp` and of
`StressTestWorker` of `CPUWin.cpp`: `SetThreadAffinityMask` first, then
`SetThreadPriority`, then the timed work. -/
def workerTrace (mask : Nat) : List WorkerEvent :=
  [WorkerEvent.bindAffinity mask, WorkerEvent.raisePriority, WorkerEvent.timedSection]

/-- Model of `MathIntensiveTest` of `CPUWin2.cpp`.  `bindOk` is the success of
`SetThreadAffinityMask`; the source discards that return value, so the
result cannot depend on it. -/
def mathIntensiveTest (bindOk : Bool) (clock : Nat → ℚ) (duration_ms : Int)
    (fuel : Nat) : KernelResult :=
  runTimedLoop clock duration_ms fuel

/-- Constant `arraySize` of `MemoryIntensiveTest`: a 16M-element working set. -/
def memArraySize : Nat := 16 * 1024 * 1024

/-- The setup phase of `MemoryIntensiveTest` (`CPUWin2.cpp` lines 176–184):
the 16M-entry buffer is allocated and filled from the generator before the
timed window opens. -/
def memorySetup (gen : Nat → Nat) : List Nat :=
  (List.range memArraySize).map gen

/-- Model of `MemoryIntensiveTest` of `CPUWin2.cpp`: perform the setup fill, then the
timed loop; the returned value again ignores `bindOk`.  The first component
is the buffer as filled by the setup phase. -/
def memoryIntensiveTest (bindOk : Bool) (gen : Nat → Nat) (clock : Nat → ℚ)
    (duration_ms : Int) (fuel : Nat) : List Nat × KernelResult :=
  (memorySetup gen, runTimedLoop clock duration_ms fuel)

/-- Model of `StressTestWorker` of `CPUWin.cpp` (lines 115–128): bind (return value
ignored), raise priority, loop `ComputeWorkload` until the stop flag, store
the iteration count into the descriptor.  `itersUntilStop` abstracts how many
outer iterations complete before the worker observes the flag. -/
def stressTestWorker (bindOk : Bool) (itersUntilStop : Nat) (core : CoreInfo1) : CoreInfo1 :=
  { core with workCompleted := itersUntilStop }

/-- Model of `RunComprehensiveBenchmark` of `CPUWin2.cpp` (lines 344–360): store the
five kernel throughputs (here abstract arguments `m, me, b, c, mi` — the
values the five kernel calls returned) and compute the weighted overall
score with the source's literal weights. -/
def runComprehensiveBenchmark (core : CoreInfo2) (m me b c mi : ℚ) : CoreInfo2 :=
  { core with
    mathScore := m
    memoryScore := me
    branchScore := b
    cacheScore := c
    mixedScore := mi
    overallScore := m * 0.25 + me * 0.2 + b * 0.2 + c * 0.15 + mi * 0.2 }

/-- The per-core score assignment of `GenerateReport` in the endurance
variant (`CPUWin.cpp` line 186): `score = workCompleted / testDuration`. -/
def reportedScore (core : CoreInfo1) (testDuration : Nat) : ℚ :=
  (core.workCompleted : ℚ) / (testDuration : ℚ)

/-- The throughput of the single endurance workload in the sense of the
spec's `WorkloadResult`: operations completed over the run's fixed
wall-clock duration in seconds. -/
def enduranceThroughput (operationsCompleted wallClockSeconds : Nat) : ℚ :=
  (operationsCompleted : ℚ) / (wallClockSeconds : ℚ)

/-- The comparator handed to `std::sort` by `PrintDetailedResults`
(`CPUWin2.cpp` line 458): `a.overallScore > b.overallScore`.  Its sortedness
postcondition on adjacent-free pairs: later elements never compare greater. -/
def scoreSorted (l : List CoreInfo2) : Prop :=
  l.Pairwise (fun a b => ¬ (b.overallScore > a.overallScore))

/-- Postcondition of `std::sort`: the call gives no guarantee beyond producing some permutation of its
input that is sorted with respect to the comparator; ties may land in any
order.  `stdSortResult input output` holds exactly of the outputs the call
on line 457 of `CPUWin2.cpp` is allowed to produce. -/
def stdSortResult (input output : List CoreInfo2) : Prop :=
  output.Perm input ∧ scoreSorted output

instance : DecidablePred scoreSorted := fun l =>
  List.instDecidablePairwise l

instance (input output : List CoreInfo2) : Decidable (stdSortResult input output) :=
  instDecidableAnd

/-- The claim's tie-break discipline: any two equal-score descriptors appear
in ascending-id order. -/
def tieBrokenById (l : List CoreInfo2) : Prop :=
  l.Pairwise (fun a b => a.overallScore = b.overallScore → a.id ≤ b.id)

instance : DecidablePred tieBrokenById := fun l =>
  List.instDecidablePairwise l

/-- The scores pushed into `typeScores[t]` by the aggregation loop of
`PrintDetailedResults` (`CPUWin2.cpp` lines 507–510): the overall scores of
the cores whose type string is `t`, in vector order. -/
def scoresOfType (t : String) (cores : List CoreInfo2) : List ℚ :=
  (cores.filter (fun c => c.type = t)).map (fun c => c.overallScore)

/-- The number of keys of the `typeScores` map: the number of distinct type
strings occurring among the cores. -/
def typeCount (cores : List CoreInfo2) : Nat :=
  ((cores.map (fun c => c.type)).dedup).length

/-- The per-kind statistics block printed for one key of `typeScores`
(`CPUWin2.cpp` lines 512–526). -/
structure KindStats where
  average : ℚ
  best : ℚ
  worst : ℚ
  variancePercent : Option ℚ
deriving DecidableEq, Repr

/-- Per-kind statistics of `PrintDetailedResults`: a kind that has no member
has no key in `typeScores` and its block is never printed (`none`); for a
present kind the block holds the average, max, min and the variance
`(max - min) / avg * 100`, whose division is unguarded (a zero average gives
a non-finite value, modelled `none` inside). -/
def kindStats (t : String) (cores : List CoreInfo2) : Option KindStats :=
  let scores := scoresOfType t cores
  if scores.isEmpty then none
  else
    let avg := scores.sum / (scores.length : ℚ)
    let maxVal := scores.foldl max (scores.headD 0)
    let minVal := scores.foldl min (scores.headD 0)
    some
      { average := avg
        best := maxVal
        worst := minVal
        variancePercent := (fdiv (maxVal - minVal) avg).map (fun v => v * 100) }

/-- The P-vs-E ratio output of `PrintDetailedResults` (`CPUWin2.cpp` lines
528–535): printed exactly when `typeScores.size() > 1`; the printed value is
`pAvg / eAvg`, computed without any zero check on `eAvg` (inner `none` =
division by zero).  The two averages divide by the member counts, which are
positive whenever the two keys exist. -/
def kindRatioOutput (cores : List CoreInfo2) : Option (Option ℚ) :=
  if 1 < typeCount cores then
    let pScores := scoresOfType "P-Core" cores
    let eScores := scoresOfType "E-Core" cores
    let pAvg := pScores.sum / (pScores.length : ℚ)
    let eAvg := eScores.sum / (eScores.length : ℚ)
    some (fdiv pAvg eAvg)
  else none

/-- Control outcome of `main` in `CPUWin2.cpp`: either discovery produced no
cores and the process prints the error and returns 1 without starting any
benchmark thread, or the benchmark pipeline is entered on the discovered
descriptors. -/
inductive MainOutcome2 where
  | discoveryFailed (exitCode : Nat)
  | proceeded (cores : List CoreInfo2)
deriving DecidableEq, Repr

/-- The discovery gate of `main` in `CPUWin2.cpp` (lines 602–611). -/
def mainWin2 (platform : Option (List ProcEntry)) : MainOutcome2 :=
  let cores := detectCPUCores platform
  if cores.isEmpty then MainOutcome2.discoveryFailed 1
  else MainOutcome2.proceeded cores

/-- Control outcome of `main` in `CPUWin.cpp`. -/
inductive MainOutcome1 where
  | discoveryFailed (exitCode : Nat)
  | proceeded (cores : List CoreInfo1)
deriving DecidableEq, Repr

/-- The discovery gate of `main` in `CPUWin.cpp` (lines 236–239): if
`DetectCPUTopology()` returns false the process reports the failure and
returns 1; otherwise the run proceeds on the discovered cores. -/
def mainWin1 (platform : Option (List ProcEntry)) : MainOutcome1 :=
  let r := detectCPUTopology platform
  if r.1 then MainOutcome1.proceeded r.2
  else MainOutcome1.discoveryFailed 1

/-- Concrete four-core platform buffer with efficiency classes `[0,0,1,1]`
(each physical core reporting one logical processor). -/
def entriesFour : List ProcEntry :=
  [⟨true, 0, [1]⟩, ⟨true, 0, [2]⟩, ⟨true, 1, [4]⟩, ⟨true, 1, [8]⟩]

/-- Concrete platform buffer with one SMT physical core: its group mask `3`
covers two logical processors. -/
def entriesSMT : List ProcEntry :=
  [⟨true, 0, [3]⟩]

/-- A Performance-kind descriptor (class 0 in the `CPUWin2.cpp` convention)
with a chosen overall score. -/
def pCoreWith (i : Nat) (s : ℚ) : CoreInfo2 :=
  { mkCore2 i 0 with overallScore := s }

/-- An Efficiency-kind descriptor (class 1 in the `CPUWin2.cpp` convention)
with a chosen overall score. -/
def eCoreWith (i : Nat) (s : ℚ) : CoreInfo2 :=
  { mkCore2 i 1 with overallScore := s }

/-- A test clock whose reading `k` happens at `k` seconds. -/
def linClock (k : Nat) : ℚ := (k : ℚ)

/-- A degenerate clock whose readings all coincide: a clock of coarser
resolution than the code path between two consecutive reads. -/
def flatClock (k : Nat) : ℚ := 0


/-! ## Structural lemmas about discovery -/

theorem mem_coresOfMask {c : CoreInfo2} {ec s cnt : Nat}
    (h : c ∈ coresOfMask ec s cnt) : ∃ i, c = mkCore2 i ec := by
  simp only [coresOfMask, List.mem_map, List.mem_range] at h
  obtain ⟨j, -, rfl⟩ := h
  exact ⟨s + j, rfl⟩

theorem mem_coresOfMasks {c : CoreInfo2} {ec : Nat} :
    ∀ {ms : List Nat} {s : Nat}, c ∈ coresOfMasks ec ms s → ∃ i, c = mkCore2 i ec
  | [], s, h => by simp [coresOfMasks] at h
  | m :: rest, s, h => by
      simp only [coresOfMasks, List.mem_append] at h
      rcases h with h | h
      · exact mem_coresOfMask h
      · exact mem_coresOfMasks h

theorem mem_detectLoop2 {c : CoreInfo2} :
    ∀ {entries : List ProcEntry} {s : Nat},
      c ∈ detectLoop2 entries s → ∃ i ec, c = mkCore2 i ec
  | [], s, h => by simp [detectLoop2] at h
  | e :: rest, s, h => by
      simp only [detectLoop2] at h
      split at h
      · rcases List.mem_append.mp h with h | h
        · obtain ⟨i, rfl⟩ := mem_coresOfMasks h
          exact ⟨i, e.efficiencyClass, rfl⟩
        · exact mem_detectLoop2 h
      · exact mem_detectLoop2 h

theorem type_detectLoop1 {c : CoreInfo1} :
    ∀ {entries : List ProcEntry} {k : Nat},
      c ∈ detectLoop1 entries k →
        c.type = if c.efficiencyClass > 0 then "P-Core" else "E-Core"
  | [], k, h => by simp [detectLoop1] at h
  | e :: rest, k, h => by
      simp only [detectLoop1] at h
      split at h
      · rcases List.mem_cons.mp h with h | h
        · subst h; rfl
        · exact type_detectLoop1 h
      · exact type_detectLoop1 h

/-! ## C1 — kind as a function of efficiency class -/

/-- C1, counterexample.  The claim says class `0` maps to Performance and
nonzero class to Efficiency in every discovery, so a topology with classes
`[0,0,1,1]` should yield kinds `[Performance, Performance, Efficiency,
Efficiency]`.  `DetectCPUTopology` of `CPUWin.cpp` classifies the other way
round (`efficiencyClass > 0 ? "P-Core" : "E-Core"`): on that very topology it
yields `[Efficiency, Efficiency, Performance, Performance]`. -/
theorem detectCPUTopology_kind_inverted :
    ((detectCPUTopology (some entriesFour)).2.map (fun c => kindOfType c.type)
        = [CoreKind.Efficiency, CoreKind.Efficiency,
           CoreKind.Performance, CoreKind.Performance])
      ∧ ((detectCPUTopology (some entriesFour)).2.map (fun c => kindOfType c.type)
        ≠ [CoreKind.Performance, CoreKind.Performance,
           CoreKind.Efficiency, CoreKind.Efficiency]) := by
  constructor <;> decide

/-- C1, amended.  In both variants the kind of a discovered descriptor is a
pure, deterministic function of the platform-reported efficiency class alone:
`DetectCPUCores` (`CPUWin2.cpp`) maps class 0 to Performance and any nonzero
class to Efficiency, and on classes `[0,0,1,1]` yields kinds
`[Performance, Performance, Efficiency, Efficiency]`; `DetectCPUTopology`
(`CPUWin.cpp`) applies the inverted mapping — class 0 to Efficiency, nonzero
to Performance. -/
theorem kind_pure_function_of_class :
    (∀ (platform : Option (List ProcEntry)) (c : CoreInfo2),
        c ∈ detectCPUCores platform →
          kindOfType c.type
            = (if c.efficiencyClass = 0 then CoreKind.Performance else CoreKind.Efficiency))
      ∧ (∀ (platform : Option (List ProcEntry)) (c : CoreInfo1),
        c ∈ (detectCPUTopology platform).2 →
          kindOfType c.type
            = (if c.efficiencyClass = 0 then CoreKind.Efficiency else CoreKind.Performance))
      ∧ (detectCPUCores (some entriesFour)).map (fun c => kindOfType c.type)
          = [CoreKind.Performance, CoreKind.Performance,
             CoreKind.Efficiency, CoreKind.Efficiency] := by
  refine ⟨?_, ?_, by decide⟩
  · rintro (_ | entries) c hc
    · simp [detectCPUCores] at hc
    · obtain ⟨i, ec, rfl⟩ := mem_detectLoop2 hc
      by_cases hec : ec = 0 <;>
        simp [mkCore2, kindOfType, hec]
  · rintro (_ | entries) c hc
    · simp [detectCPUTopology] at hc
    · have ht := type_detectLoop1 hc
      by_cases hec : c.efficiencyClass = 0
      · simp [hec, kindOfType] at ht ⊢
        simp [ht]
      · have : c.efficiencyClass > 0 := Nat.pos_of_ne_zero hec
        simp [hec, kindOfType] at ht ⊢
        simp [ht, this]

/-- C1, witness for the amended theorem: the first descriptor of the
four-core scenario under `CPUWin2.cpp` discovery has class 0 and Performance
kind, and the first descriptor under `CPUWin.cpp` discovery has class 0 and
Efficiency kind. -/
theorem kind_pure_function_of_class_witness :
    kindOfType (mkCore2 0 0).type
        = (if (mkCore2 0 0).efficiencyClass = 0 then CoreKind.Performance
           else CoreKind.Efficiency)
      ∧ ∀ c ∈ (detectCPUTopology (some entriesFour)).2,
          c.id = 0 →
            kindOfType c.type
              = (if c.efficiencyClass = 0 then CoreKind.Efficiency
                 else CoreKind.Performance) :=
  ⟨kind_pure_function_of_class.1 (some entriesFour) (mkCore2 0 0) (by decide),
   fun c hc _ => kind_pure_function_of_class.2.1 (some entriesFour) c hc⟩

/-! ## C9 — discovery failure is fatal before any work -/

/-- C9, confirmed.  In both variants, when topology discovery fails (the
platform query cannot be satisfied, or it yields no cores) no descriptors are
produced and `main` takes the discovery-failure exit with status 1 — a
distinct outcome from `proceeded`, so the scheduler is never invoked and no
benchmark work starts.  In particular a failing platform query (`none`)
produces exactly this outcome. -/
theorem discovery_failure_fatal :
    (∀ platform : Option (List ProcEntry),
        (detectCPUCores platform).isEmpty = true →
          mainWin2 platform = MainOutcome2.discoveryFailed 1)
      ∧ (∀ platform : Option (List ProcEntry),
        (detectCPUTopology platform).1 = false →
          (detectCPUTopology platform).2 = []
            ∧ mainWin1 platform = MainOutcome1.discoveryFailed 1)
      ∧ detectCPUCores none = []
      ∧ mainWin2 none = MainOutcome2.discoveryFailed 1
      ∧ mainWin1 none = MainOutcome1.discoveryFailed 1
      ∧ (1 : Nat) ≠ 0 := by
  refine ⟨?_, ?_, rfl, rfl, rfl, one_ne_zero⟩
  · intro platform h
    simp [mainWin2, h]
  · intro platform h
    match platform with
    | none => exact ⟨rfl, rfl⟩
    | some entries =>
      simp only [detectCPUTopology, Bool.not_eq_false'] at h ⊢
      refine ⟨List.isEmpty_iff.mp h, ?_⟩
      simp [mainWin1, detectCPUTopology, h]

/-- C9, witness: a failing platform query is a concrete discovery failure,
and on it both programs exit with status 1 without proceeding. -/
theorem discovery_failure_fatal_witness :
    mainWin2 none = MainOutcome2.discoveryFailed 1
      ∧ mainWin1 none = MainOutcome1.discoveryFailed 1 :=
  ⟨discovery_failure_fatal.1 none (by decide),
   (discovery_failure_fatal.2.1 none (by decide)).2⟩

/-! ## C2 — discovery postconditions -/

theorem countSetBitsAux_zero : ∀ fuel, countSetBitsAux fuel 0 = 0
  | 0 => rfl
  | fuel + 1 => by simp [countSetBitsAux]

theorem countSetBitsAux_two_pow :
    ∀ (n fuel : Nat), 2 ^ n ≤ fuel → countSetBitsAux fuel (2 ^ n) = 1 := by
  intro n
  induction n with
  | zero =>
      intro fuel hf
      match fuel, hf with
      | f + 1, _ =>
          simp [countSetBitsAux, countSetBitsAux_zero]
  | succ k ih =>
      intro fuel hf
      have hpos : 0 < 2 ^ k := pow_pos (by norm_num) k
      have hsucc : 2 ^ (k + 1) = 2 ^ k + 2 ^ k := by
        rw [pow_succ, Nat.mul_two]
      obtain ⟨f, rfl⟩ : ∃ f, fuel = f + 1 := ⟨fuel - 1, by omega⟩
      have hne : 2 ^ (k + 1) ≠ 0 := by positivity
      have hmod : 2 ^ (k + 1) % 2 = 0 := by
        rw [pow_succ]
        exact Nat.mul_mod_left _ _
      have hdiv : 2 ^ (k + 1) / 2 = 2 ^ k := by
        rw [pow_succ]
        exact Nat.mul_div_cancel _ (by norm_num)
      have hk : 2 ^ k ≤ f := by omega
      simp only [countSetBitsAux, if_neg hne, hmod, hdiv, ih f hk]

/-- A selector of the form `1 << i` selects exactly one logical processor. -/
theorem countSetBits_two_pow (n : Nat) : countSetBits (2 ^ n) = 1 :=
  countSetBitsAux_two_pow n (2 ^ n) le_rfl

theorem length_coresOfMask (ec s cnt : Nat) : (coresOfMask ec s cnt).length = cnt := by
  simp [coresOfMask]

theorem map_id_coresOfMask (ec s cnt : Nat) :
    (coresOfMask ec s cnt).map (fun c => c.id) = List.range' s cnt := by
  rw [List.range'_eq_map_range]
  simp only [coresOfMask, List.map_map]
  rfl

theorem map_id_coresOfMasks (ec : Nat) :
    ∀ (ms : List Nat) (s : Nat),
      (coresOfMasks ec ms s).map (fun c => c.id)
        = List.range' s (coresOfMasks ec ms s).length
  | [], s => by simp [coresOfMasks]
  | m :: rest, s => by
      simp only [coresOfMasks, List.map_append, List.length_append,
        map_id_coresOfMask, length_coresOfMask, map_id_coresOfMasks ec rest]
      rw [List.range'_append_1]
      exact congrArg (List.range' s) (Nat.add_comm _ _)

theorem map_id_detectLoop2 :
    ∀ (entries : List ProcEntry) (s : Nat),
      (detectLoop2 entries s).map (fun c => c.id)
        = List.range' s (detectLoop2 entries s).length
  | [], s => by simp [detectLoop2]
  | e :: rest, s => by
      simp only [detectLoop2]
      split
      · simp only [List.map_append, List.length_append, map_id_coresOfMasks,
          map_id_detectLoop2 rest]
        rw [List.range'_append_1]
        exact congrArg (List.range' s) (Nat.add_comm _ _)
      · exact map_id_detectLoop2 rest s

theorem map_id_detectLoop1 :
    ∀ (entries : List ProcEntry) (k : Nat),
      (detectLoop1 entries k).map (fun c => c.id)
        = List.range' k (detectLoop1 entries k).length
  | [], k => by simp [detectLoop1]
  | e :: rest, k => by
      simp only [detectLoop1]
      split
      · simp only [List.map_cons, map_id_detectLoop1 rest, List.length_cons]
        rw [List.range'_succ]
      · exact map_id_detectLoop1 rest k

/-- Below the 64-bit overflow point the truncating shift is the plain
power. -/
theorem two_pow_mod_word_of_lt {i : Nat} (h : i < 64) : 2 ^ i % 2 ^ 64 = 2 ^ i :=
  Nat.mod_eq_of_lt (Nat.pow_lt_pow_right (by norm_num) h)

/-- From the 64-bit overflow point on, the truncating shift is zero: the
selector selects no logical processor at all. -/
theorem two_pow_mod_word_of_ge {i : Nat} (h : 64 ≤ i) : 2 ^ i % 2 ^ 64 = 0 :=
  Nat.mod_eq_zero_of_dvd (pow_dvd_pow 2 h)

theorem countSetBits_zero : countSetBits 0 = 0 := rfl

theorem affinityMask_detectLoop2 {c : CoreInfo2} {entries : List ProcEntry} {s : Nat}
    (h : c ∈ detectLoop2 entries s) :
    c.affinityMask = 2 ^ c.id % 2 ^ 64
      ∧ (c.id < 64 → c.affinityMask = 2 ^ c.id ∧ countSetBits c.affinityMask = 1)
      ∧ (64 ≤ c.id → c.affinityMask = 0 ∧ countSetBits c.affinityMask = 0) := by
  obtain ⟨i, ec, rfl⟩ := mem_detectLoop2 h
  refine ⟨rfl, ?_, ?_⟩
  · intro hi
    have hm : (mkCore2 i ec).affinityMask = 2 ^ i := two_pow_mod_word_of_lt hi
    exact ⟨hm, by rw [hm]; exact countSetBits_two_pow i⟩
  · intro hi
    have hm : (mkCore2 i ec).affinityMask = 0 := two_pow_mod_word_of_ge hi
    exact ⟨hm, by rw [hm]; exact countSetBits_zero⟩

theorem pairwise_id_lt_detectLoop2 (entries : List ProcEntry) (s : Nat) :
    (detectLoop2 entries s).Pairwise (fun a b => a.id < b.id) := by
  have hp : ((detectLoop2 entries s).map (fun c => c.id)).Pairwise (· < ·) := by
    rw [map_id_detectLoop2 entries s]
    exact List.pairwise_lt_range' _ _
  exact List.pairwise_map.mp hp

theorem two_pow_land_two_pow {i j : Nat} (h : i ≠ j) : 2 ^ i &&& 2 ^ j = 0 := by
  apply Nat.eq_of_testBit_eq
  intro k
  rw [Nat.testBit_and, Nat.zero_testBit]
  rcases eq_or_ne i k with rfl | hik
  · rw [Nat.testBit_two_pow_of_ne (Ne.symm h)]
    simp
  · rw [Nat.testBit_two_pow_of_ne hik]
    simp

theorem pairwise_disjoint_detectLoop2 (entries : List ProcEntry) (s : Nat)
    (hsmall : ∀ c ∈ detectLoop2 entries s, c.id < 64) :
    (detectLoop2 entries s).Pairwise
      (fun a b => a.affinityMask &&& b.affinityMask = 0) := by
  refine List.Pairwise.imp_of_mem ?_ (pairwise_id_lt_detectLoop2 entries s)
  intro a b ha hb hlt
  obtain ⟨ma, -⟩ := (affinityMask_detectLoop2 ha).2.1 (hsmall a ha)
  obtain ⟨mb, -⟩ := (affinityMask_detectLoop2 hb).2.1 (hsmall b hb)
  rw [ma, mb]
  exact two_pow_land_two_pow (Nat.ne_of_lt hlt)

/-- Every discovered descriptor's id is below the number of discovered
descriptors (ids are `0..n-1` in discovery order). -/
theorem id_lt_length_detectCPUCores {platform : Option (List ProcEntry)}
    {c : CoreInfo2} (hc : c ∈ detectCPUCores platform) :
    c.id < (detectCPUCores platform).length := by
  match platform with
  | none => simp [detectCPUCores] at hc
  | some entries =>
      have hmem : c.id ∈ (detectCPUCores (some entries)).map (fun c => c.id) :=
        List.mem_map_of_mem _ hc
      rw [show detectCPUCores (some entries) = detectLoop2 entries 0 from rfl,
        map_id_detectLoop2 entries 0] at hmem
      have hlt := (List.mem_range'_1.mp hmem).2
      show c.id < (detectLoop2 entries 0).length
      omega

/-- C2, counterexample.  The claim requires every affinity selector of every
discovery to select exactly one logical processor.  `DetectCPUTopology` of
`CPUWin.cpp` copies the platform's per-physical-core group mask verbatim: on
a platform reporting one SMT core with group mask `3` (two logical
processors) the discovered descriptor's selector is `3`, which selects two
logical processors, not one. -/
theorem affinity_selector_not_single_bit :
    (detectCPUTopology (some entriesSMT)).2.map (fun c => c.affinityMask) = [3]
      ∧ countSetBits 3 = 2
      ∧ ¬ (∀ c ∈ (detectCPUTopology (some entriesSMT)).2,
            countSetBits c.affinityMask = 1) := by
  refine ⟨by decide, by decide, by decide⟩

/-- C2, amended.  For `DetectCPUCores` (`CPUWin2.cpp`): ids are contiguous
starting at 0 in discovery order, every discovery that `main` accepts as
successful is non-empty, and every affinity selector is the truncating
64-bit shift `(DWORD_PTR)1 << id`.  For a descriptor with `id < 64` that
selector is the single-bit mask `2 ^ id`, selecting exactly one logical
processor, and on platforms whose discovery yields at most 64 descriptors
the selectors are pairwise disjoint; from the 65th logical processor on the
shift overflows `DWORD_PTR` (undefined behaviour; under the truncating model
the selector is 0 and selects nothing), so the single-bit and disjointness
guarantees do not extend past 64 logical processors.  For
`DetectCPUTopology` (`CPUWin.cpp`) ids are contiguous starting at 0 and a
successful discovery is non-empty, but the affinity selectors are the
platform's whole-core group masks taken verbatim, so they may select more
than one logical processor. -/
theorem discovery_postcondition :
    (∀ platform : Option (List ProcEntry),
        (detectCPUCores platform).map (fun c => c.id)
          = List.range (detectCPUCores platform).length)
      ∧ (∀ (platform : Option (List ProcEntry)) (c : CoreInfo2),
          c ∈ detectCPUCores platform →
            c.affinityMask = 2 ^ c.id % 2 ^ 64
              ∧ (c.id < 64 →
                  c.affinityMask = 2 ^ c.id ∧ countSetBits c.affinityMask = 1)
              ∧ (64 ≤ c.id →
                  c.affinityMask = 0 ∧ countSetBits c.affinityMask = 0))
      ∧ (∀ platform : Option (List ProcEntry),
          (detectCPUCores platform).length ≤ 64 →
            (detectCPUCores platform).Pairwise
              (fun a b => a.affinityMask &&& b.affinityMask = 0))
      ∧ (∀ (platform : Option (List ProcEntry)) (cs : List CoreInfo2),
          mainWin2 platform = MainOutcome2.proceeded cs → cs ≠ [])
      ∧ (∀ platform : Option (List ProcEntry),
          (detectCPUTopology platform).2.map (fun c => c.id)
            = List.range (detectCPUTopology platform).2.length)
      ∧ (∀ platform : Option (List ProcEntry),
          (detectCPUTopology platform).1 = true
            → (detectCPUTopology platform).2 ≠ []) := by
  refine ⟨?_, ?_, ?_, ?_, ?_, ?_⟩
  · rintro (_ | entries)
    · rfl
    · rw [List.range_eq_range']
      exact map_id_detectLoop2 entries 0
  · rintro (_ | entries) c hc
    · simp [detectCPUCores] at hc
    · exact affinityMask_detectLoop2 hc
  · rintro (_ | entries) hlen
    · exact List.Pairwise.nil
    · refine pairwise_disjoint_detectLoop2 entries 0 ?_
      intro c hc
      have hid := @id_lt_length_detectCPUCores (some entries) c hc
      exact lt_of_lt_of_le hid hlen
  · intro platform cs h
    by_cases he : (detectCPUCores platform).isEmpty = true
    · simp [mainWin2, he] at h
    · simp only [mainWin2, if_neg he, MainOutcome2.proceeded.injEq] at h
      subst h
      simpa [List.isEmpty_iff] using he
  · rintro (_ | entries)
    · rfl
    · rw [List.range_eq_range']
      exact map_id_detectLoop1 entries 0
  · rintro (_ | entries) h
    · exact absurd h (by simp [detectCPUTopology])
    · simp only [detectCPUTopology, Bool.not_eq_false'] at h
      intro heq
      simp only [detectCPUTopology] at heq
      rw [heq] at h
      simp at h

/-- C2, witness for the amended theorem: the four-core scenario has
descriptor 0 below the 64-logical-processor overflow point, so its selector
is `1 = 2^0` and selects exactly one logical processor; the discovery yields
at most 64 descriptors, so the four selectors are pairwise disjoint; and
`main` accepts the discovery with a non-empty descriptor list. -/
theorem discovery_postcondition_witness :
    ((mkCore2 0 0).id < 64
        ∧ (mkCore2 0 0).affinityMask = 2 ^ (mkCore2 0 0).id
        ∧ countSetBits (mkCore2 0 0).affinityMask = 1)
      ∧ ((detectCPUCores (some entriesFour)).length ≤ 64
        ∧ (detectCPUCores (some entriesFour)).Pairwise
            (fun a b => a.affinityMask &&& b.affinityMask = 0))
      ∧ detectCPUCores (some entriesFour) ≠ [] :=
  ⟨⟨by decide,
    (discovery_postcondition.2.1 (some entriesFour) (mkCore2 0 0)
      (by decide)).2.1 (by decide)⟩,
   ⟨by decide,
    discovery_postcondition.2.2.1 (some entriesFour) (by decide)⟩,
   discovery_postcondition.2.2.2.1 (some entriesFour)
     (detectCPUCores (some entriesFour)) (by decide)⟩

/-! ## C3 — kernels at non-positive duration -/

theorem loopIters_zero {clock : Nat → ℚ} {endT : ℚ} {i : Nat}
    (h : ¬ clock i < endT) : ∀ fuel, loopIters clock endT fuel i = 0
  | 0 => rfl
  | fuel + 1 => by simp [loopIters, h]

theorem runTimedLoop_nonpos {clock : Nat → ℚ} {d : Int} (fuel : Nat)
    (hmono : Monotone clock) (hd : d ≤ 0) :
    (runTimedLoop clock d fuel).operations = 0
      ∧ (runTimedLoop clock d fuel).elapsedSeconds = clock 2 - clock 0
      ∧ (runTimedLoop clock d fuel).throughput
          = (if clock 2 - clock 0 = 0 then none else some 0) := by
  have hdq : (d : ℚ) ≤ 0 := by exact_mod_cast hd
  have hq : (d : ℚ) / 1000 ≤ 0 :=
    div_nonpos_iff.mpr (Or.inr ⟨hdq, by norm_num⟩)
  have hclock : clock 0 ≤ clock 1 := hmono (by norm_num)
  have hend : ¬ clock 1 < clock 0 + (d : ℚ) / 1000 := by
    push_neg
    linarith
  have h0 : loopIters clock (clock 0 + (d : ℚ) / 1000) fuel 1 = 0 :=
    loopIters_zero hend fuel
  refine ⟨by simp [runTimedLoop, h0], by simp [runTimedLoop, h0], ?_⟩
  by_cases he : clock 2 - clock 0 = 0 <;>
    simp [runTimedLoop, h0, fdiv, he, zero_div]

/-- C3, counterexample.  The claim says a kernel run with `durationMillis = 0`
returns throughput `0` and that the division is protected by a
minimum-elapsed floor or an explicit zero-guard.  No such guard exists in the
code: when the two clock readings around the (empty) loop coincide — a clock
of coarser resolution than the empty code path — `MathIntensiveTest` and
`MemoryIntensiveTest` compute `0 / 0.0`, a division by a zero elapsed time
whose result is not `0` but NaN (modelled `none`). -/
theorem zero_duration_division_by_zero :
    (mathIntensiveTest true flatClock 0 5).operations = 0
      ∧ (mathIntensiveTest true flatClock 0 5).throughput = none
      ∧ (memoryIntensiveTest true (fun k => 0) flatClock 0 5).2.throughput = none := by
  refine ⟨?_, ?_, ?_⟩ <;>
    simp [mathIntensiveTest, memoryIntensiveTest, runTimedLoop, loopIters,
      flatClock, fdiv]

/-- C3, amended.  With `durationMillis ≤ 0` and a monotone clock, each kernel
still performs its setup (the memory kernel's 16M-entry buffer is allocated
and filled) and returns `operationsCompleted = 0`; its throughput is `0`
whenever the closing clock reading strictly exceeds the opening one, but the
division `operations / elapsed` carries no zero-guard, so coinciding readings
produce a division by zero instead of `0`. -/
theorem nonpositive_duration_behavior :
    ∀ (bindOk : Bool) (gen : Nat → Nat) (clock : Nat → ℚ) (d : Int) (fuel : Nat),
      Monotone clock → d ≤ 0 →
        (mathIntensiveTest bindOk clock d fuel).operations = 0
          ∧ (memoryIntensiveTest bindOk gen clock d fuel).2.operations = 0
          ∧ (memorySetup gen).length = memArraySize
          ∧ (clock 0 < clock 2 →
              (mathIntensiveTest bindOk clock d fuel).throughput = some 0
                ∧ (memoryIntensiveTest bindOk gen clock d fuel).2.throughput = some 0) := by
  intro bindOk gen clock d fuel hmono hd
  obtain ⟨hops, hel, hth⟩ := runTimedLoop_nonpos fuel hmono hd
  refine ⟨hops, hops, by simp [memorySetup], ?_⟩
  intro hlt
  have hne : clock 2 - clock 0 ≠ 0 := sub_ne_zero.mpr (ne_of_gt hlt)
  rw [if_neg hne] at hth
  exact ⟨hth, hth⟩

/-- C3, witness for the amended theorem, at the second-ticking clock, the
constant generator, duration 0 and fuel 3. -/
theorem nonpositive_duration_behavior_witness :
    Monotone linClock ∧ (0 : Int) ≤ 0
      ∧ ((mathIntensiveTest true linClock 0 3).operations = 0
          ∧ (memoryIntensiveTest true (fun k => 0) linClock 0 3).2.operations = 0
          ∧ (memorySetup (fun k => 0)).length = memArraySize
          ∧ (linClock 0 < linClock 2 →
              (mathIntensiveTest true linClock 0 3).throughput = some 0
                ∧ (memoryIntensiveTest true (fun k => 0) linClock 0 3).2.throughput
                    = some 0)) := by
  have hmono : Monotone linClock := fun a b hab => by
    simp only [linClock]
    exact_mod_cast hab
  exact ⟨hmono, le_rfl,
    nonpositive_duration_behavior true (fun k => 0) linClock 0 3 hmono le_rfl⟩

/-! ## C4 — the kind ratio guard -/

theorem scoresOfType_ne_nil_iff (t : String) (cores : List CoreInfo2) :
    scoresOfType t cores ≠ [] ↔ t ∈ cores.map (fun c => c.type) := by
  simp [scoresOfType, List.map_eq_nil_iff, List.filter_eq_nil_iff, List.mem_map]

theorem one_lt_dedup_length {l : List String} {a b : String}
    (hall : ∀ x ∈ l, x = a ∨ x = b) (hab : a ≠ b) :
    1 < l.dedup.length ↔ (a ∈ l ∧ b ∈ l) := by
  constructor
  · intro h
    rcases hd : l.dedup with _ | ⟨x, _ | ⟨y, rest⟩⟩
    · rw [hd] at h; simp at h
    · rw [hd] at h; simp at h
    · have hx : x ∈ l := List.mem_dedup.mp (by rw [hd]; exact List.mem_cons_self _ _)
      have hy : y ∈ l := List.mem_dedup.mp
        (by rw [hd]; exact List.mem_cons_of_mem _ (List.mem_cons_self _ _))
      have hnd := List.nodup_dedup l
      rw [hd] at hnd
      have hxy : x ≠ y := by
        intro hxyeq
        subst hxyeq
        exact (List.nodup_cons.mp hnd).1 (List.mem_cons_self _ _)
      rcases hall x hx with rfl | rfl <;> rcases hall y hy with rfl | rfl
      · exact absurd rfl hxy
      · exact ⟨hx, hy⟩
      · exact ⟨hy, hx⟩
      · exact absurd rfl hxy
  · rintro ⟨ha, hb⟩
    have ha2 : a ∈ l.dedup := List.mem_dedup.mpr ha
    have hb2 : b ∈ l.dedup := List.mem_dedup.mpr hb
    rcases hd : l.dedup with _ | ⟨x, _ | ⟨y, rest⟩⟩
    · rw [hd] at ha2; simp at ha2
    · rw [hd] at ha2 hb2
      simp at ha2 hb2
      exact absurd (ha2.trans hb2.symm) hab
    · simp only [List.length_cons]
      omega

theorem typeCount_gt_one_iff {cores : List CoreInfo2}
    (hall : ∀ c ∈ cores, c.type = "P-Core" ∨ c.type = "E-Core") :
    1 < typeCount cores
      ↔ (scoresOfType "P-Core" cores ≠ [] ∧ scoresOfType "E-Core" cores ≠ []) := by
  have hall2 : ∀ x ∈ cores.map (fun c => c.type), x = "P-Core" ∨ x = "E-Core" := by
    intro x hx
    obtain ⟨c, hc, rfl⟩ := List.mem_map.mp hx
    exact hall c hc
  rw [typeCount, one_lt_dedup_length hall2 (by decide),
    scoresOfType_ne_nil_iff, scoresOfType_ne_nil_iff]

/-- C4, counterexample.  The claim says the kind ratio is present only when
both kinds have a nonzero average and that no division by zero is performed.
On the input with one Performance core of score 100 and one Efficiency core
of score 0, `PrintDetailedResults` checks only `typeScores.size() > 1` and
prints the ratio anyway: the Efficiency average is 0 and the unguarded
division `pAvg / eAvg` divides by zero (inner `none`). -/
theorem kind_ratio_unguarded_zero_average :
    kindRatioOutput [pCoreWith 0 100, eCoreWith 1 0] = some none
      ∧ (scoresOfType "E-Core" [pCoreWith 0 100, eCoreWith 1 0]).sum = 0 := by
  constructor
  · simp +decide [kindRatioOutput, typeCount, scoresOfType, fdiv,
      pCoreWith, eCoreWith, mkCore2, List.dedup]
  · simp +decide [scoresOfType, pCoreWith, eCoreWith, mkCore2]

/-- C4, amended.  For inputs whose descriptors carry the two type strings the
source produces, the ratio is printed iff both kinds have at least one member
(`typeScores.size() > 1`); the averages are never checked, and when both
kinds are present the printed value is the unguarded division
`pAvg / eAvg` — a division by zero whenever the Efficiency average is 0. -/
theorem kind_ratio_guard :
    ∀ cores : List CoreInfo2,
      (∀ c ∈ cores, c.type = "P-Core" ∨ c.type = "E-Core") →
        ((kindRatioOutput cores).isSome = true
            ↔ (scoresOfType "P-Core" cores ≠ [] ∧ scoresOfType "E-Core" cores ≠ []))
          ∧ ((scoresOfType "P-Core" cores ≠ [] ∧ scoresOfType "E-Core" cores ≠ []) →
              kindRatioOutput cores
                = some (fdiv
                    ((scoresOfType "P-Core" cores).sum
                      / ((scoresOfType "P-Core" cores).length : ℚ))
                    ((scoresOfType "E-Core" cores).sum
                      / ((scoresOfType "E-Core" cores).length : ℚ)))) := by
  intro cores hall
  by_cases hc : 1 < typeCount cores
  · refine ⟨?_, ?_⟩
    · rw [kindRatioOutput, if_pos hc]
      simpa using (typeCount_gt_one_iff hall).mp hc
    · intro hboth
      rw [kindRatioOutput, if_pos hc]
  · refine ⟨?_, ?_⟩
    · constructor
      · intro h
        rw [kindRatioOutput, if_neg hc] at h
        simp at h
      · intro hboth
        exact absurd ((typeCount_gt_one_iff hall).mpr hboth) hc
    · intro hboth
      exact absurd ((typeCount_gt_one_iff hall).mpr hboth) hc

/-- C4, witness for the amended theorem: on one Performance core of score 100
and one Efficiency core of score 50 the ratio is printed and equals the
guarded value `100 / 50 = 2`. -/
theorem kind_ratio_guard_witness :
    (∀ c ∈ [pCoreWith 0 100, eCoreWith 1 50],
        c.type = "P-Core" ∨ c.type = "E-Core")
      ∧ ((kindRatioOutput [pCoreWith 0 100, eCoreWith 1 50]).isSome = true
          ↔ (scoresOfType "P-Core" [pCoreWith 0 100, eCoreWith 1 50] ≠ []
              ∧ scoresOfType "E-Core" [pCoreWith 0 100, eCoreWith 1 50] ≠ [])) := by
  have hall : ∀ c ∈ [pCoreWith 0 100, eCoreWith 1 50],
      c.type = "P-Core" ∨ c.type = "E-Core" := by decide
  exact ⟨hall, (kind_ratio_guard [pCoreWith 0 100, eCoreWith 1 50] hall).1⟩

/-! ## C5 — ranking order -/

/-- C5, counterexample.  The claim requires equal-score descriptors to appear
in ascending-id order.  The sort call passes only the score comparator to
`std::sort`, which is not stable and has no id tie-break: on two descriptors
with equal score, the output that lists id 1 before id 0 satisfies every
guarantee `std::sort` gives, yet violates the claimed tie order. -/
theorem sort_tie_order_not_by_id :
    stdSortResult [pCoreWith 0 5, eCoreWith 1 5] [eCoreWith 1 5, pCoreWith 0 5]
      ∧ ¬ tieBrokenById [eCoreWith 1 5, pCoreWith 0 5] := by
  constructor
  · constructor
    · decide
    · decide
  · decide

/-- C5, amended.  Every output the sort call may produce is a permutation of
the input that is ordered by `overallScore` descending (position-wise:
a later descriptor never has a larger score); the relative order of
descriptors with equal `compositeScore` is not determined — no id tie-break
exists. -/
theorem sort_by_score_descending :
    ∀ input output : List CoreInfo2,
      stdSortResult input output →
        output.Perm input
          ∧ (∀ (i j : Nat) (hi : i < output.length) (hj : j < output.length),
              i ≤ j →
                (output.get ⟨j, hj⟩).overallScore
                  ≤ (output.get ⟨i, hi⟩).overallScore) := by
  intro input output h
  obtain ⟨hperm, hsorted⟩ := h
  refine ⟨hperm, ?_⟩
  intro i j hi hj hij
  rcases Nat.eq_or_lt_of_le hij with rfl | hlt
  · exact le_refl _
  · have hij2 := List.pairwise_iff_getElem.mp hsorted i j hi hj hlt
    simpa [List.get_eq_getElem, not_lt] using hij2

/-- C5, witness for the amended theorem: a concrete admissible sort outcome
is a permutation of its input sorted descending. -/
theorem sort_by_score_descending_witness :
    stdSortResult [pCoreWith 0 1, eCoreWith 1 5] [eCoreWith 1 5, pCoreWith 0 1]
      ∧ [eCoreWith 1 5, pCoreWith 0 1].Perm [pCoreWith 0 1, eCoreWith 1 5] :=
  ⟨by decide,
   (sort_by_score_descending [pCoreWith 0 1, eCoreWith 1 5]
      [eCoreWith 1 5, pCoreWith 0 1] (by decide)).1⟩

/-! ## C10 — aggregation reorders the caller's vector in place -/

/-- C10, confirmed.  `PrintDetailedResults` receives the caller's descriptor
vector by reference (`main`, line 663) and sorts it in place before
reporting: afterwards the vector is a permutation of the discovery-order
sequence holding exactly the same descriptors (no field of any descriptor
changes), ordered by descending overall score, and the discovery order
itself is in general not preserved — on a concrete input whose scores are
ascending, keeping the original order is not an admissible outcome of the
sort while the reversed order is. -/
theorem aggregation_sorts_in_place :
    (∀ input output : List CoreInfo2,
        stdSortResult input output →
          output.Perm input ∧ (∀ c, c ∈ output ↔ c ∈ input))
      ∧ stdSortResult [pCoreWith 0 1, eCoreWith 1 5] [eCoreWith 1 5, pCoreWith 0 1]
      ∧ ¬ stdSortResult [pCoreWith 0 1, eCoreWith 1 5] [pCoreWith 0 1, eCoreWith 1 5]
      ∧ [eCoreWith 1 5, pCoreWith 0 1] ≠ [pCoreWith 0 1, eCoreWith 1 5] := by
  refine ⟨?_, by decide, by decide, by decide⟩
  rintro input output ⟨hperm, -⟩
  exact ⟨hperm, fun c => hperm.mem_iff⟩

/-- C10, witness: the permutation part applied to a concrete admissible
outcome. -/
theorem aggregation_sorts_in_place_witness :
    stdSortResult [pCoreWith 0 5, eCoreWith 1 1] [pCoreWith 0 5, eCoreWith 1 1]
      ∧ [pCoreWith 0 5, eCoreWith 1 1].Perm [pCoreWith 0 5, eCoreWith 1 1] :=
  ⟨by decide,
   (aggregation_sorts_in_place.1 [pCoreWith 0 5, eCoreWith 1 1]
      [pCoreWith 0 5, eCoreWith 1 1] (by decide)).1⟩

/-! ## C6 — composite score -/

/-- C6, confirmed.  In benchmark mode the overall score stored by
`RunComprehensiveBenchmark` is exactly the weighted sum
`math*0.25 + memory*0.20 + branch*0.20 + cache*0.15 + mixed*0.20` of the five
stored workload throughputs, and in the endurance variant the reported score
is the single workload's throughput `workCompleted / testDuration`
directly. -/
theorem composite_score_weights :
    (∀ (core : CoreInfo2) (m me b c mi : ℚ),
        (runComprehensiveBenchmark core m me b c mi).overallScore
            = (25 * m + 20 * me + 20 * b + 15 * c + 20 * mi) / 100
          ∧ (runComprehensiveBenchmark core m me b c mi).mathScore = m
          ∧ (runComprehensiveBenchmark core m me b c mi).memoryScore = me
          ∧ (runComprehensiveBenchmark core m me b c mi).branchScore = b
          ∧ (runComprehensiveBenchmark core m me b c mi).cacheScore = c
          ∧ (runComprehensiveBenchmark core m me b c mi).mixedScore = mi)
      ∧ (∀ (core : CoreInfo1) (d : Nat),
          reportedScore core d = enduranceThroughput core.workCompleted d) := by
  constructor
  · intro core m me b c mi
    refine ⟨?_, rfl, rfl, rfl, rfl, rfl⟩
    show m * 0.25 + me * 0.2 + b * 0.2 + c * 0.15 + mi * 0.2
        = (25 * m + 20 * me + 20 * b + 15 * c + 20 * mi) / 100
    norm_num
    ring
  · intro core d
    rfl

/-! ## C7 — per-kind statistics -/

theorem foldl_max_mem : ∀ (l : List ℚ) (a : ℚ), l.foldl max a ∈ a :: l
  | [], a => by simp
  | x :: xs, a => by
      have h := foldl_max_mem xs (max a x)
      rw [List.foldl_cons]
      rcases List.mem_cons.mp h with h1 | h1
      · rcases max_choice a x with hm | hm
        · rw [h1, hm]
          exact List.mem_cons_self _ _
        · rw [h1, hm]
          exact List.mem_cons_of_mem _ (List.mem_cons_self _ _)
      · exact List.mem_cons_of_mem _ (List.mem_cons_of_mem _ h1)

theorem le_foldl_max : ∀ (l : List ℚ) (a : ℚ), ∀ y ∈ a :: l, y ≤ l.foldl max a
  | [], a, y, hy => by
      simp only [List.mem_singleton] at hy
      simp [hy]
  | x :: xs, a, y, hy => by
      rw [List.foldl_cons]
      rcases List.mem_cons.mp hy with rfl | hy1
      · exact le_trans (le_max_left _ _)
          (le_foldl_max xs _ _ (List.mem_cons_self _ _))
      · rcases List.mem_cons.mp hy1 with rfl | hy2
        · exact le_trans (le_max_right _ _)
            (le_foldl_max xs _ _ (List.mem_cons_self _ _))
        · exact le_foldl_max xs _ y (List.mem_cons_of_mem _ hy2)

theorem foldl_min_mem : ∀ (l : List ℚ) (a : ℚ), l.foldl min a ∈ a :: l
  | [], a => by simp
  | x :: xs, a => by
      have h := foldl_min_mem xs (min a x)
      rw [List.foldl_cons]
      rcases List.mem_cons.mp h with h1 | h1
      · rcases min_choice a x with hm | hm
        · rw [h1, hm]
          exact List.mem_cons_self _ _
        · rw [h1, hm]
          exact List.mem_cons_of_mem _ (List.mem_cons_self _ _)
      · exact List.mem_cons_of_mem _ (List.mem_cons_of_mem _ h1)

theorem foldl_min_le : ∀ (l : List ℚ) (a : ℚ), ∀ y ∈ a :: l, l.foldl min a ≤ y
  | [], a, y, hy => by
      simp only [List.mem_singleton] at hy
      simp [hy]
  | x :: xs, a, y, hy => by
      rw [List.foldl_cons]
      rcases List.mem_cons.mp hy with rfl | hy1
      · exact le_trans
          (foldl_min_le xs _ _ (List.mem_cons_self _ _)) (min_le_left _ _)
      · rcases List.mem_cons.mp hy1 with rfl | hy2
        · exact le_trans
            (foldl_min_le xs _ _ (List.mem_cons_self _ _)) (min_le_right _ _)
        · exact foldl_min_le xs _ y (List.mem_cons_of_mem _ hy2)

/-- C7, counterexample.  The claim says a kind with exactly one member gets
variance 0%.  The variance `(max - min) / avg * 100` is computed without a
zero-average guard: for a single Efficiency member of score 0 the code
computes `0 / 0.0`, and the printed variance is NaN (`none`), not 0%. -/
theorem single_zero_member_variance_undefined :
    kindStats "E-Core" [eCoreWith 0 0]
        = some { average := 0, best := 0, worst := 0, variancePercent := none }
      ∧ ∀ s : KindStats, kindStats "E-Core" [eCoreWith 0 0] = some s →
          s.variancePercent ≠ some 0 := by
  have h : kindStats "E-Core" [eCoreWith 0 0]
      = some { average := 0, best := 0, worst := 0, variancePercent := none } := by
    simp +decide [kindStats, scoresOfType, eCoreWith, mkCore2, fdiv]
  refine ⟨h, ?_⟩
  intro s hs
  rw [h] at hs
  simp only [Option.some.injEq] at hs
  subst hs
  simp

/-- C7, amended.  For each kind the statistics block exists exactly when the
kind has at least one member (an absent kind is omitted, not zero-filled).
When present it holds the average (`sum / count`), the maximum and minimum of
the kind's overall scores, and the variance `(max - min) / average * 100`,
whose division is unguarded; a kind with exactly one member of nonzero score
gets variance 0%, while a single member of score 0 yields an undefined
(NaN) variance. -/
theorem kind_statistics :
    ∀ (t : String) (cores : List CoreInfo2),
      (scoresOfType t cores = [] → kindStats t cores = none)
        ∧ (scoresOfType t cores ≠ [] →
            ∃ s : KindStats, kindStats t cores = some s
              ∧ s.average * ((scoresOfType t cores).length : ℚ)
                  = (scoresOfType t cores).sum
              ∧ s.best ∈ scoresOfType t cores
              ∧ (∀ y ∈ scoresOfType t cores, y ≤ s.best)
              ∧ s.worst ∈ scoresOfType t cores
              ∧ (∀ y ∈ scoresOfType t cores, s.worst ≤ y)
              ∧ s.variancePercent
                  = (fdiv (s.best - s.worst) s.average).map (fun v => v * 100))
        ∧ (∀ x : ℚ, scoresOfType t cores = [x] → x ≠ 0 →
            kindStats t cores
              = some { average := x, best := x, worst := x,
                       variancePercent := some 0 }) := by
  intro t cores
  refine ⟨?_, ?_, ?_⟩
  · intro h
    simp [kindStats, h]
  · intro h
    rcases hsc : scoresOfType t cores with _ | ⟨x, xs⟩
    · exact absurd hsc h
    · have hlen : ((x :: xs).length : ℚ) ≠ 0 := by
        simp only [List.length_cons]
        exact_mod_cast Nat.succ_ne_zero xs.length
      have hmaxmem : (x :: xs).foldl max ((x :: xs).headD 0) ∈ x :: xs := by
        rcases List.mem_cons.mp (foldl_max_mem (x :: xs) x) with hm | hm
        · rw [List.headD_cons, hm]
          exact List.mem_cons_self _ _
        · rw [List.headD_cons]
          exact hm
      have hminmem : (x :: xs).foldl min ((x :: xs).headD 0) ∈ x :: xs := by
        rcases List.mem_cons.mp (foldl_min_mem (x :: xs) x) with hm | hm
        · rw [List.headD_cons, hm]
          exact List.mem_cons_self _ _
        · rw [List.headD_cons]
          exact hm
      rw [kindStats, hsc]
      refine ⟨_, rfl, ?_, ?_, ?_, ?_, ?_, rfl⟩
      · simp only [List.isEmpty_cons]
        exact div_mul_cancel₀ _ hlen
      · simpa using hmaxmem
      · intro y hy
        simp only [List.headD_cons]
        exact le_foldl_max (x :: xs) x y (List.mem_cons_of_mem _ hy)
      · simpa using hminmem
      · intro y hy
        simp only [List.headD_cons]
        exact foldl_min_le (x :: xs) x y (List.mem_cons_of_mem _ hy)
  · intro x hx hxne
    rw [kindStats, hx]
    simp [fdiv, hxne]

/-- C7, witness for the amended theorem: a Performance kind with the single
member score 100 gets the block `average = best = worst = 100`,
variance 0%. -/
theorem kind_statistics_witness :
    scoresOfType "P-Core" [pCoreWith 0 100] = [100]
      ∧ (100 : ℚ) ≠ 0
      ∧ kindStats "P-Core" [pCoreWith 0 100]
          = some { average := 100, best := 100, worst := 100,
                   variancePercent := some 0 } := by
  have h1 : scoresOfType "P-Core" [pCoreWith 0 100] = [100] := by
    simp +decide [scoresOfType, pCoreWith, mkCore2]
  have h2 : (100 : ℚ) ≠ 0 := by decide
  exact ⟨h1, h2, (kind_statistics "P-Core" [pCoreWith 0 100]).2.2 100 h1 h2⟩

/-! ## C8 — affinity binding -/

/-- C8, counterexample.  The claim says a failed bind is reported as
`SchedulingError::AffinityBindFailed` and the core's results are marked
absent.  The source discards the return value of `SetThreadAffinityMask`:
with the bind failed, `MathIntensiveTest` returns exactly the same populated
measurement as with the bind succeeded (here 4 operations, throughput
`4 / 6 = 2/3`) — no error value exists anywhere, nothing is marked absent,
and the unpinned score is recorded as if it were valid.  The endurance
worker of `CPUWin.cpp` likewise stores its full iteration count regardless
of the bind result. -/
theorem bind_failure_not_reported :
    mathIntensiveTest false linClock 5000 10 = mathIntensiveTest true linClock 5000 10
      ∧ (mathIntensiveTest false linClock 5000 10).operations = 4
      ∧ (mathIntensiveTest false linClock 5000 10).throughput = some (2 / 3)
      ∧ stressTestWorker false 7
            { id := 0, efficiencyClass := 0, affinityMask := 1,
              type := "E-Core", workCompleted := 0, score := 0 }
          = stressTestWorker true 7
            { id := 0, efficiencyClass := 0, affinityMask := 1,
              type := "E-Core", workCompleted := 0, score := 0 } := by
  refine ⟨rfl, ?_, ?_, rfl⟩
  · norm_num [mathIntensiveTest, runTimedLoop, loopIters, linClock]
  · norm_num [mathIntensiveTest, runTimedLoop, loopIters, linClock, fdiv]

/-- C8, amended.  Binding the worker to the core's selector is the first
action, before priority elevation and before any timed work; the bind result
is then discarded: neither `MathIntensiveTest` and its siblings nor
`StressTestWorker` can report a failure or mark results absent — their output
is identical whether the bind succeeded or not, so a bind failure silently
records an unpinned measured score while the run continues. -/
theorem bind_first_result_ignored :
    (∀ mask : Nat, (workerTrace mask).head? = some (WorkerEvent.bindAffinity mask))
      ∧ (∀ mask : Nat, workerTrace mask
          = [WorkerEvent.bindAffinity mask, WorkerEvent.raisePriority,
             WorkerEvent.timedSection])
      ∧ (∀ (bindOk : Bool) (clock : Nat → ℚ) (d : Int) (fuel : Nat),
          mathIntensiveTest bindOk clock d fuel = mathIntensiveTest true clock d fuel)
      ∧ (∀ (bindOk : Bool) (gen : Nat → Nat) (clock : Nat → ℚ) (d : Int) (fuel : Nat),
          memoryIntensiveTest bindOk gen clock d fuel
            = memoryIntensiveTest true gen clock d fuel)
      ∧ (∀ (bindOk : Bool) (n : Nat) (core : CoreInfo1),
          stressTestWorker bindOk n core = stressTestWorker true n core) :=
  ⟨fun _ => rfl, fun _ => rfl, fun _ _ _ _ => rfl, fun _ _ _ _ _ => rfl,
   fun _ _ _ => rfl⟩
